import Mathlib

/-!
# Verification of the reaper-levitanus ffmpeg timeline core

A shallow embedding of the timeline-composition tree, its lowering into an
ffmpeg filter graph, the stream-id generator, the render-job progress state
machine and the filter-graph node primitive, together with theorems about
the behaviour of these operations.

Modelling conventions:
* `Position`, `Duration` and `SourceOffset` values (f64-backed seconds in the
  host crate) are embedded as exact rationals (`Rat`), measured in seconds.
* Rust panics (`assert!`, `assert_eq!`) are embedded as `Except PanicMsg`
  results; each `PanicMsg` constructor corresponds to one assert message in
  the source.
* `SerializedFilter` values are kept abstract as their final textual
  `ffmpeg_representation` strings: no embedded operation inspects their
  structure, only concatenates their renderings.
-/

namespace ReaperLevitanus

/-! ## Decimal rendering and parsing of numbers

`natDec` embeds Rust's decimal `Display` for unsigned integers.  The
auxiliary function takes explicit fuel (`n + 1` is always enough, as a
number `n` has at most `n + 1` decimal digits) so that it is structurally
recursive and evaluates by kernel reduction. -/

def digitChar (d : Nat) : Char :=
  Char.ofNat (48 + d % 10)

def natDecAux : Nat → Nat → List Char → List Char
  | 0, _, acc => acc
  | fuel + 1, n, acc =>
    let acc2 := digitChar (n % 10) :: acc
    if n < 10 then acc2 else natDecAux fuel (n / 10) acc2

def natDec (n : Nat) : String :=
  ⟨natDecAux (n + 1) n []⟩

/-- Decimal rendering of a signed integer. -/
def intRepr (i : Int) : String :=
  if i < 0 then "-" ++ natDec i.natAbs else natDec i.toNat

/-- Rendering of a rational number of seconds, standing for Rust's `Display`
of `f64` values in the generated filter strings.  Exact on the integral
values exercised by the verified scenarios. -/
def ratRepr (q : Rat) : String :=
  if q.den = 1 then intRepr q.num
  else intRepr q.num ++ "/" ++ natDec q.den

/-- Value of a decimal digit character. -/
def charVal (c : Char) : Nat := c.toNat - 48

/-- Left fold of decimal digits onto an accumulator, the core of integer
parsing (`str.parse` in the source). -/
def parseDigitsAcc : List Char → Nat → Nat
  | [], acc => acc
  | c :: cs, acc => parseDigitsAcc cs (10 * acc + charVal c)

def parseNat (s : String) : Nat :=
  parseDigitsAcc s.data 0

/-! ## Timeline data model (`src/ffmpeg/base.rs`)

The Rust code uses a struct `TimeLineContent` with common fields
(`timeline_position`, `timeline_end_position`, `z_index`) and an enum
payload `TimeLineContentType`.  Here the two are flattened into one
inductive whose every constructor carries the common fields; accessor
functions recover the struct fields. -/

/-- The textual `ffmpeg_representation` of a `SerializedFilter`. -/
abbrev FilterRepr := String

/-- The payload of `TimeLineContentType::Video` (struct `Video`). -/
structure VideoData where
  file : String
  fade_in : Option Rat
  fade_out : Option Rat
  source_offset : Rat
  filter_chain : List FilterRepr
deriving DecidableEq, Repr

/-- `TimeLineContent` with its `TimeLineContentType` payload flattened in. -/
inductive TimeLineContent where
  | Background (timeline_position timeline_end_position : Rat) (z_index : Nat)
  | Video (video : VideoData)
      (timeline_position timeline_end_position : Rat) (z_index : Nat)
  | Concat (left right : TimeLineContent)
      (timeline_position timeline_end_position : Rat) (z_index : Nat)
  | XFade (left right : TimeLineContent) (fade_duration : Rat)
      (timeline_position timeline_end_position : Rat) (z_index : Nat)
deriving DecidableEq, Repr

namespace TimeLineContent

def timeline_position : TimeLineContent → Rat
  | .Background p _ _ => p
  | .Video _ p _ _ => p
  | .Concat _ _ p _ _ => p
  | .XFade _ _ _ p _ _ => p

def timeline_end_position : TimeLineContent → Rat
  | .Background _ e _ => e
  | .Video _ _ e _ => e
  | .Concat _ _ _ e _ => e
  | .XFade _ _ _ _ e _ => e

def z_index : TimeLineContent → Nat
  | .Background _ _ z => z
  | .Video _ _ _ z => z
  | .Concat _ _ _ _ z => z
  | .XFade _ _ _ _ _ z => z

end TimeLineContent

/-- One constructor per distinct assert message in the source. -/
inductive PanicMsg where
  /-- `assert!(video.track_index <= self.z_index, "pushing underlying video")` -/
  | pushingUnderlyingVideo
  /-- `assert_eq!(left.timeline_end_position, right.timeline_position, "wrong connection")` -/
  | wrongConnection
  /-- `assert_eq!(left.timeline_end_position - duration, right.timeline_position, "wrong duration length...")` -/
  | wrongDurationLength
deriving DecidableEq, Repr

/-- `Concat::new`: seam assert, then a `Concat` node spanning both children,
`z_index` the minimum of the children's. -/
def Concat.new (left right : TimeLineContent) : Except PanicMsg TimeLineContent :=
  if left.timeline_end_position = right.timeline_position then
    .ok (.Concat left right left.timeline_position right.timeline_end_position
      (min left.z_index right.z_index))
  else .error .wrongConnection

/-- `XFade::new`: overlap assert (`left.end - duration == right.start`), then
an `XFade` node spanning both children. -/
def XFade.new (left right : TimeLineContent) (duration : Rat) :
    Except PanicMsg TimeLineContent :=
  if left.timeline_end_position - duration = right.timeline_position then
    .ok (.XFade left right duration
      left.timeline_position right.timeline_end_position
      (min left.z_index right.z_index))
  else .error .wrongDurationLength

/-- `VideoInput`: one host media item, as handed to `push_video`. -/
structure VideoInput where
  file : String
  timeline_position : Rat
  timeline_end_position : Rat
  source_offset : Rat
  fade_in : Option Rat
  fade_out : Option Rat
  fade_out_is_x_fade : Bool
  track_index : Nat
  filter_chain : List FilterRepr
deriving DecidableEq, Repr

/-- `Video::new`: a `Video` leaf taking span and `z_index` from the input. -/
def Video.new (video : VideoInput) : TimeLineContent :=
  .Video ⟨video.file, video.fade_in, video.fade_out, video.source_offset,
      video.filter_chain⟩
    video.timeline_position video.timeline_end_position video.track_index

namespace TimeLineContent

/-- `TimeLineContent::new`.  The Rust code reads `z_index` from
`Reaper::get().current_project().n_tracks()`; the track count is an
explicit argument here. -/
def new (duration : Rat) (n_tracks : Nat) : TimeLineContent :=
  .Background 0 duration n_tracks

/-- The Rust assignments `self.z_index = other.z_index;
`self.content_type = other.content_type` on the flattened representation:
keep `self`'s span, take `other`'s payload and `z_index`. -/
def withContentAndZ (self other : TimeLineContent) : TimeLineContent :=
  match other with
  | .Background _ _ z =>
      .Background self.timeline_position self.timeline_end_position z
  | .Video v _ _ z =>
      .Video v self.timeline_position self.timeline_end_position z
  | .Concat l r _ _ z =>
      .Concat l r self.timeline_position self.timeline_end_position z
  | .XFade l r d _ _ z =>
      .XFade l r d self.timeline_position self.timeline_end_position z

end TimeLineContent

/-- Panic propagation through a subcomputation: run `x`, and when it
panics, re-raise; otherwise continue. -/
def bindE {α β : Type} (x : Except PanicMsg α) (f : α → Except PanicMsg β) :
    Except PanicMsg β :=
  match x with
  | .error e => .error e
  | .ok y => f y

namespace TimeLineContent

/-- `TimeLineContent::split` (base.rs lines 231-319), including the
cross-fade-overlap branch with its derived fade durations
`r_left.timeline_end_position - r_left.timeline_end_position` and
`l_right.timeline_end_position - l_right.timeline_end_position`
exactly as written in the source. -/
def split : TimeLineContent → Rat → Except PanicMsg (TimeLineContent × TimeLineContent)
  | .Background pos endPos z, position =>
      .ok (.Background pos position z, .Background position endPos z)
  | .Video v pos endPos z, position =>
      let left := { v with fade_out := none }
      let right := { v with fade_in := none,
                            source_offset := v.source_offset + (position - pos) }
      .ok (.Video left pos position z, .Video right position endPos z)
  | .Concat cLeft cRight _pos _endPos _z, position =>
      if position = cLeft.timeline_end_position then .ok (cLeft, cRight)
      else
        bindE
          (if position < cLeft.timeline_end_position then
            bindE (cLeft.split position)
              (fun (left, center) => .ok (left, center, cRight))
          else
            bindE (cRight.split position)
              (fun (center, right) => .ok (cLeft, center, right)))
          (fun (left, center, right) =>
            if center.timeline_position = position then
              bindE (Concat.new center right) (fun c => .ok (left, c))
            else
              bindE (Concat.new left center) (fun c => .ok (c, right)))
  | .XFade fLeft fRight fade_duration _pos _endPos _z, position =>
      if position ≤ fLeft.timeline_end_position - fade_duration then
        bindE (fLeft.split position) (fun (left, right) =>
          bindE (XFade.new right fRight fade_duration) (fun x => .ok (left, x)))
      else if fRight.timeline_position + fade_duration ≤ position then
        bindE (fRight.split position) (fun (left, right) =>
          bindE (XFade.new fLeft left fade_duration) (fun x => .ok (x, right)))
      else
        bindE (fLeft.split position) (fun (lLeft, lRight) =>
          bindE (fRight.split position) (fun (rLeft, rRight) =>
            bindE (XFade.new lLeft rLeft
                (rLeft.timeline_end_position - rLeft.timeline_end_position))
              (fun left =>
                bindE (XFade.new lRight rRight
                    (lRight.timeline_end_position - lRight.timeline_end_position))
                  (fun right => .ok (left, right)))))

/-- `self_left` computation of `push_video`: split the current tree at the
solid start unless the split point coincides with the span start. -/
def pushSplitLeft (self : TimeLineContent) (solid_start : Rat) :
    Except PanicMsg (Option TimeLineContent) :=
  if solid_start = self.timeline_position then .ok none
  else match self.split solid_start with
    | .error e => .error e
    | .ok (left, _right) => .ok (some left)

/-- `self_right` computation of `push_video`. -/
def pushSplitRight (self : TimeLineContent) (solid_end : Rat) :
    Except PanicMsg (Option TimeLineContent) :=
  if solid_end = self.timeline_end_position then .ok none
  else match self.split solid_end with
    | .error e => .error e
    | .ok (_left, right) => .ok (some right)

/-- The `left` composite of `push_video`: the new video alone, or glued to
the preceding content with `Concat` / `XFade` depending on `fade_in`. -/
def pushLeft (self_left : Option TimeLineContent) (video : VideoInput) :
    Except PanicMsg TimeLineContent :=
  match self_left with
  | none => .ok (Video.new video)
  | some left =>
    match video.fade_in with
    | none => Concat.new left (Video.new video)
    | some d => XFade.new left (Video.new video) d

/-- The final `match self_right` of `push_video`: glue the right remainder
with `Concat` / `XFade` depending on `fade_out`, and assign the payload and
`z_index` of the composed result into `self`. -/
def pushCombine (self left : TimeLineContent)
    (self_right : Option TimeLineContent) (fade_out : Option Rat) :
    Except PanicMsg TimeLineContent :=
  match self_right with
  | none => .ok (self.withContentAndZ left)
  | some right =>
    match fade_out with
    | none =>
      match Concat.new left right with
      | .error e => .error e
      | .ok content => .ok (self.withContentAndZ content)
    | some d =>
      match XFade.new left right d with
      | .error e => .error e
      | .ok content => .ok (self.withContentAndZ content)

/-- `TimeLineContent::push_video` (base.rs lines 148-230). -/
def push_video (self : TimeLineContent) (video : VideoInput) :
    Except PanicMsg TimeLineContent :=
  if ¬ (video.track_index ≤ self.z_index) then .error .pushingUnderlyingVideo
  else if video.fade_in = none ∧ video.fade_out = none
      ∧ video.timeline_position = self.timeline_position
      ∧ video.timeline_end_position = self.timeline_end_position then
    .ok (self.withContentAndZ (Video.new video))
  else
    let solid_start := match video.fade_in with
      | none => video.timeline_position
      | some d => video.timeline_position + d
    let solid_end := match video.fade_out with
      | none => video.timeline_end_position
      | some d => video.timeline_end_position - d
    match self.pushSplitLeft solid_start with
    | .error e => .error e
    | .ok self_left =>
      match self.pushSplitRight solid_end with
      | .error e => .error e
      | .ok self_right =>
        match pushLeft self_left video with
        | .error e => .error e
        | .ok left => pushCombine self left self_right video.fade_out

end TimeLineContent

/-- Folding a sequence of inputs into a tree with `push_video`, stopping at
the first panic (`TimeLine::push` applied repeatedly). -/
def push_videos : TimeLineContent → List VideoInput →
    Except PanicMsg TimeLineContent
  | t, [] => .ok t
  | t, v :: vs =>
    match t.push_video v with
    | .error e => .error e
    | .ok t2 => push_videos t2 vs

/-! ## Stream id generation (`src/ffmpeg/stream_ids.rs`) -/

/-- Replace the value of the first entry with the given key, appending a new
entry when the key is absent; embeds `HashMap` entry mutation. -/
def setAssoc : List (String × Nat) → String → Nat → List (String × Nat)
  | [], k, v => [(k, v)]
  | (k0, v0) :: rest, k, v =>
    if k0 = k then (k, v) :: rest else (k0, v0) :: setAssoc rest k v

/-- `NamedStreamId`: one monotonic counter per name.  The `HashMap` is
embedded as an association list without duplicate keys. -/
structure NamedStreamId where
  names : List (String × Nat)
deriving DecidableEq, Repr

namespace NamedStreamId

def new : NamedStreamId := ⟨[]⟩

/-- `NamedStreamId::id` (stream_ids.rs lines 121-134): first call with a
name returns the name suffixed with `0` and records counter `0`; every
further call increments the counter and suffixes its decimal rendering. -/
def id (self : NamedStreamId) (idArg : String) : String × NamedStreamId :=
  match self.names.lookup idArg with
  | none => (idArg ++ "0", ⟨(idArg, 0) :: self.names⟩)
  | some index =>
      (idArg ++ natDec (index + 1), ⟨setAssoc self.names idArg (index + 1)⟩)

end NamedStreamId

/-- The outputs of a sequence of `id` calls against one generator. -/
def runIds (g : NamedStreamId) : List String → List String
  | [] => []
  | p :: ps =>
    let (s, g2) := g.id p
    s :: runIds g2 ps

/-- Modelled from the spec: the `StreamId` generator used by
`TimeLineContent::render` and `Render::get_render_job` is not present under
`src/` (only `NamedStreamId` is).  Per the spec, id allocation is by
monotonic counters keyed by short semantic prefixes — delegated here to
`NamedStreamId` — and raw video inputs are numbered in first-reference
order, the pass-through audio stream taking the input index after all
video inputs. -/
structure StreamId where
  named : NamedStreamId
  video_inputs : Nat
deriving DecidableEq, Repr

namespace StreamId

def new : StreamId := ⟨NamedStreamId.new, 0⟩

/-- Modelled from the spec: prefixed id allocation, delegated to
`NamedStreamId::id`. -/
def id (self : StreamId) (idArg : String) : String × StreamId :=
  let (s, named) := self.named.id idArg
  (s, { self with named := named })

/-- Modelled from the spec: the label of the next raw video input, counted
in first-reference order. -/
def input_video_id (self : StreamId) : String × StreamId :=
  (natDec self.video_inputs, { self with video_inputs := self.video_inputs + 1 })

/-- Modelled from the spec: the input index of the pass-through audio
stream, directly after all video inputs. -/
def input_audio_id (self : StreamId) : String :=
  natDec self.video_inputs

end StreamId

/-! ## Graph lowering (`TimeLineContent::render`, base.rs lines 320-463) -/

structure Resolution where
  width : Nat
  height : Nat
deriving DecidableEq, Repr

/-- The result of lowering one subtree. -/
structure TimeLineContentRender where
  id : String
  inputs : List String
  filters : Option String
deriving DecidableEq, Repr

/-- `Timestamp::timestump` for `Duration` (base_types.rs lines 152-160),
kept verbatim with its total-minutes and total-seconds fields.  Also used
for the `SourceOffset` variant, whose field arithmetic coincides on the
nonnegative offsets produced here. -/
def timestump (q : Rat) : String :=
  let secs := q.floor.toNat
  let millis := ((q - (secs : Rat)) * 1000).floor.toNat
  natDec (secs / 60 / 60) ++ ":" ++ natDec (secs / 60) ++ ":"
    ++ natDec secs ++ "." ++ natDec millis

/-- `TimeLineContent::render_filters`: join the children's filter
expressions, labelling each with its id. -/
def render_filters (left right : TimeLineContentRender) : Option String :=
  match left.filters with
  | some lf =>
    let f := lf ++ "[" ++ left.id ++ "]"
    match right.filters with
    | some rf => some (f ++ ";" ++ rf ++ "[" ++ right.id ++ "]")
    | none => some f
  | none =>
    match right.filters with
    | some rf => some (rf ++ "[" ++ right.id ++ "]")
    | none => none

/-- The `if let Some(f) = Self::render_filters(..)` prelude of the `Concat`
and `XFade` branches: joined child expressions followed by a semicolon, or
empty. -/
def renderJoin (left right : TimeLineContentRender) : String :=
  match render_filters left right with
  | some f => f ++ ";"
  | none => ""

/-- The single cross-fade stage emitted by the `XFade` branch. -/
def xfadeStage (lId rId : String) (duration offset : Rat) : String :=
  "[" ++ lId ++ "][" ++ rId ++ "]xfade=transition=fade:duration="
    ++ ratRepr duration ++ ":offset=" ++ ratRepr offset

/-- `TimeLineContent::render`: the framerate `Fraction` is embedded as a
numerator/denominator pair (the source's `unwrap_or` defaults apply to an
unreduced `Fraction`; here both components are always present), the
`FfmpegColor` as its rendered string. -/
def TimeLineContent.render :
    TimeLineContent → Resolution → Nat × Nat → String → StreamId →
    TimeLineContentRender × StreamId
  | .Background pos endPos _z, resolution, _framerate, bg_color, gen =>
    let duration := endPos - pos
    let filters := "color=c=" ++ bg_color ++ ":s="
      ++ natDec resolution.width ++ "x" ++ natDec resolution.height
      ++ ":duration=" ++ ratRepr duration
    let (id, gen) := gen.id "bg"
    (⟨id, [], some filters⟩, gen)
  | .Video v pos endPos _z, resolution, framerate, bg_color, gen =>
    let duration := endPos - pos
    let inputs := ["-ss", timestump v.source_offset,
      "-t", timestump duration, "-i", v.file]
    let (input_id, gen) := gen.input_video_id
    let filters :=
      ["[" ++ input_id ++ "]fps=fps=" ++ natDec framerate.1 ++ "/"
          ++ natDec framerate.2,
        "scale=w=" ++ natDec resolution.width ++ ":h=" ++ natDec resolution.height
          ++ ":force_original_aspect_ratio=decrease:force_divisible_by=2",
        "pad=width=" ++ natDec resolution.width ++ ":height="
          ++ natDec resolution.height ++ ":x=" ++ natDec resolution.width
          ++ "/2-iw/2:y=" ++ natDec resolution.height ++ "/2-ih/2:color="
          ++ bg_color,
        "setsar=ratio=1/1"] ++ v.filter_chain
    let (id, gen) := gen.id "vf"
    (⟨id, inputs, some (String.intercalate "," filters)⟩, gen)
  | .Concat cLeft cRight _pos _endPos _z, resolution, framerate, bg_color, gen =>
    let (id, gen) := gen.id "conc"
    let (left, gen) := cLeft.render resolution framerate bg_color gen
    let (right, gen) := cRight.render resolution framerate bg_color gen
    let filters :=
      [renderJoin left right ++ "[" ++ left.id ++ "][" ++ right.id
          ++ "]concat=n=2:v=1:a=0",
        "fps=fps=" ++ natDec framerate.1 ++ "/" ++ natDec framerate.2]
    (⟨id, left.inputs ++ right.inputs, some (String.intercalate "," filters)⟩, gen)
  | .XFade fLeft fRight fade_duration _pos _endPos _z,
      resolution, framerate, bg_color, gen =>
    let (id, gen) := gen.id "xfade"
    let (left, gen) := fLeft.render resolution framerate bg_color gen
    let (right, gen) := fRight.render resolution framerate bg_color gen
    let filters := renderJoin left right
      ++ xfadeStage left.id right.id fade_duration fRight.timeline_position
    (⟨id, left.inputs ++ right.inputs, some filters⟩, gen)

/-! ## String scanning helpers for the progress protocol

These embed the regular-expression searches of `render_widget.rs`: each
pattern is a literal followed by a character-class capture, and the regex
engine retries at the next start position when the capture would be empty. -/

/-- Is `pat` a contiguous substring of the scanned list (Rust
`str::contains`)? -/
def substrAux (pat : List Char) : List Char → Bool
  | [] => pat.isEmpty
  | c :: cs => pat.isPrefixOf (c :: cs) || substrAux pat cs

def containsSubstr (s pat : String) : Bool :=
  substrAux pat.data s.data

/-- First match of `literal` followed by a nonempty run of `cls` characters;
returns the run.  Embeds a regex search for a literal followed by a
one-or-more character class. -/
def scanCapture (literal : List Char) (cls : Char → Bool) :
    List Char → Option (List Char)
  | [] => none
  | c :: cs =>
    if literal.isPrefixOf (c :: cs) then
      let run := ((c :: cs).drop literal.length).takeWhile cls
      if run.isEmpty then scanCapture literal cls cs else some run
    else scanCapture literal cls cs

/-- The search for the `speed=` pattern, whose capture additionally skips
leading whitespace before a nonempty run of non-whitespace characters. -/
def scanSpeed : List Char → Option (List Char)
  | [] => none
  | c :: cs =>
    if "speed=".data.isPrefixOf (c :: cs) then
      let rest := ((c :: cs).drop 6).dropWhile Char.isWhitespace
      let run := rest.takeWhile (fun ch => ¬ ch.isWhitespace)
      if run.isEmpty then scanSpeed cs else some run
    else scanSpeed cs

/-- Idealized embedding of parsing a decimal literal into a float: integer
digits, an optional point, fraction digits — read exactly as a rational. -/
def parseRatDec (cs : List Char) : Rat :=
  let intPart := cs.takeWhile Char.isDigit
  let rest := cs.drop intPart.length
  match rest with
  | '.' :: fracCs =>
    let frac := fracCs.takeWhile Char.isDigit
    (parseDigitsAcc intPart 0 : Rat)
      + (parseDigitsAcc frac 0 : Rat) / ((10 : Rat) ^ frac.length)
  | _ => (parseDigitsAcc intPart 0 : Rat)

/-! ## Render job and progress parsing (`src/ffmpeg/gui/render_widget.rs`) -/

/-- `DurationUnit` (options.rs lines 316-325). -/
inductive DurationUnit where
  | Seconds (s : Rat)
  | Milliseconds (ms : Int)
  | Microseconds (us : Int)
  | Timestamp (hours minutes : Nat) (seconds : Rat)
deriving DecidableEq, Repr

/-- `DurationUnit::as_duration`, in seconds. -/
def DurationUnit.as_duration : DurationUnit → Rat
  | .Seconds s => s
  | .Milliseconds ms => (ms : Rat) / 1000
  | .Microseconds us => (us : Rat) / 1000000
  | .Timestamp h m s => (h : Rat) * 3600 + (m : Rat) * 60 + s

deriving instance DecidableEq for Except

/-- `RenderProgress`: a running fraction or a final result. -/
inductive RenderProgress where
  | Progress (fraction : Rat)
  | Result (r : Except String Unit)
deriving DecidableEq, Repr

/-- Is the progress field a latched error? -/
def RenderProgress.isErr : RenderProgress → Bool
  | .Result (.error _) => true
  | _ => false

/-- Is the progress field any `Result` value? -/
def RenderProgress.isResult : RenderProgress → Bool
  | .Result _ => true
  | _ => false

/-- `RenderMessage`; Rust `Result<String, String>` is embedded as
`Except String String`. -/
inductive RenderMessage where
  | Frame (frame : Nat)
  | Fps (fps : Rat)
  | Time (t : DurationUnit)
  | Speed (s : String)
  | Progress (p : Except String String)
  | Stop
  | Err (e : String)
  | LogError (s : String)
deriving DecidableEq, Repr

/-- `RenderMessage::from_string` (render_widget.rs lines 169-213): the five
patterns tried in order.  An `out_time` capture with fewer than three
colon-separated fields makes the source panic; no such line is fed here. -/
def RenderMessage.from_string (line : String) : Option RenderMessage :=
  match scanCapture "frame=".data Char.isDigit line.data with
  | some cap => some (.Frame (parseDigitsAcc cap 0))
  | none =>
  match scanCapture "fps=".data (fun c => c.isDigit || c = '.') line.data with
  | some cap => some (.Fps (parseRatDec cap))
  | none =>
  match scanCapture "out_time=".data
      (fun c => c.isDigit || c = '.' || c = ':') line.data with
  | some cap =>
    match cap.splitOn ':' with
    | hours :: minutes :: seconds :: _ =>
      some (.Time (.Timestamp (parseDigitsAcc hours 0)
        (parseDigitsAcc minutes 0) (parseRatDec seconds)))
    | _ => none
  | none =>
  match scanSpeed line.data with
  | some cap => some (.Speed ⟨cap⟩)
  | none =>
  match scanCapture "progress=".data (fun c => c.isAlphanum || c = '_')
      line.data with
  | some cap =>
    let w : String := ⟨cap⟩
    if w = "continue" ∨ w = "end" then some (.Progress (.ok w))
    else some (.Progress (.error w))
  | none => none

/-- `RenderStatus` and its `Default` impl. -/
structure RenderStatus where
  frame : Nat
  fps : Rat
  time : DurationUnit
  speed : String
  progress : Except String String
deriving DecidableEq, Repr

def RenderStatus.default : RenderStatus :=
  ⟨0, 0, .Seconds 0, "", .ok ""⟩

/-- `RenderJob`, restricted to the state the polling loop reads and writes.
The GUI flags (`show_error`, `show_script`, `render_script`) and the
channel/process handles are I/O resources outside the embedding. -/
structure RenderJob where
  filename : String
  duration : Rat
  progress : RenderProgress
  last_status : RenderStatus
  error_log : String
deriving DecidableEq, Repr

/-- One iteration of the message loop in `RenderJob::poll` (render_widget.rs
lines 87-139).  The boolean is false exactly when the source takes the early
`return Ok(())` (a `progress=end` with an error already latched), which
abandons the rest of the drained messages.  The `Err` arm additionally sends
`Stop` on the job's channel — an external side effect outside this state. -/
def RenderJob.pollOne (self : RenderJob) : RenderMessage → RenderJob × Bool
  | .Frame frame => ({ self with last_status.frame := frame }, true)
  | .Fps fps => ({ self with last_status.fps := fps }, true)
  | .Time t =>
    let progress := t.as_duration / self.duration
    ({ self with progress := .Progress progress, last_status.time := t }, true)
  | .Speed s => ({ self with last_status.speed := s }, true)
  | .Progress p =>
    match p with
    | .error e =>
      ({ self with progress := .Result (.error e), last_status.progress := p },
        true)
    | .ok w =>
      if w = "end" then
        match self.progress with
        | .Result (.error _) => (self, false)
        | _ =>
          ({ self with progress := .Result (.ok ()),
                       last_status := { self.last_status with progress := p } },
            true)
      else ({ self with last_status.progress := p }, true)
  | .Stop => (self, true)
  | .Err e =>
    match self.progress with
    | .Result (.error old) =>
      ({ self with progress := .Result (.error (old ++ "\n" ++ e)) }, true)
    | _ => ({ self with progress := .Result (.error e) }, true)
  | .LogError s =>
    let j := { self with error_log := self.error_log ++ s ++ "\n" }
    if containsSubstr s "Error" then
      ({ j with progress := .Result (.error s) }, true)
    else (j, true)

/-- `RenderJob::poll`: drain a buffered message sequence, honouring the
early return of the `progress=end`-after-error case. -/
def RenderJob.poll : RenderJob → List RenderMessage → RenderJob
  | j, [] => j
  | j, msg :: rest =>
    let (j2, cont) := j.pollOne msg
    if cont then j2.poll rest else j2

/-- The `RenderJob` construction in `Front::render` (render_widget.rs lines
231-242): default status, initial progress `Progress(0.0)`, empty error
log. -/
def mkRenderJob (filename : String) (duration : Rat) : RenderJob :=
  { filename := filename, duration := duration,
    progress := .Progress 0, last_status := RenderStatus.default,
    error_log := "" }

/-! ## Filter-graph node primitive (`src/ffmpeg/nodes.rs`) -/

/-- `Pin`: a named endpoint with an optional bound target name. -/
inductive Pin where
  | Video (name : String) (target : Option String)
  | Audio (name : String) (target : Option String)
deriving DecidableEq, Repr

def Pin.get_name : Pin → String
  | .Video name _ => name
  | .Audio name _ => name

def Pin.get_target : Pin → Option String
  | .Video _ target => target
  | .Audio _ target => target

def Pin.with_target : Pin → Option String → Pin
  | .Video name _, target => .Video name target
  | .Audio name _, target => .Audio name target

/-- `NodeContent`, with the `Filter` payload abstracted to its textual name:
`connect_sink` never inspects it. -/
inductive NodeContent where
  | Filter (filter : String)
  | Input (file : String) (source_offset : Rat) (length : Rat)
deriving DecidableEq, Repr

structure Node where
  inputs : List Pin
  outputs : List Pin
  content : NodeContent
deriving DecidableEq, Repr

/-- `Node::connect_sink` (nodes.rs lines 40-59).  The `&mut` mutation of
both nodes is embedded as the returned pair; on an out-of-range index the
source returns `Err` before either node is touched, so both come back
unchanged.  The second error message repeats `sink_index`, as in the
source. -/
def Node.connect_sink (self other : Node) (sink_index source_index : Nat) :
    Except String Unit × Node × Node :=
  match self.inputs[sink_index]? with
  | none =>
    (.error ("can not get sink with index: " ++ natDec sink_index), self, other)
  | some sink =>
    match other.outputs[source_index]? with
    | none =>
      (.error ("can not get sink with index: " ++ natDec sink_index), self, other)
    | some source =>
      let new_sink := sink.with_target (some source.get_name)
      let new_source := source.with_target (some sink.get_name)
      (.ok (),
        { self with inputs := self.inputs.set sink_index new_sink },
        { other with outputs := other.outputs.set source_index new_source })

/-! ## Theorems -/

theorem withContentAndZ_position (s o : TimeLineContent) :
    (s.withContentAndZ o).timeline_position = s.timeline_position := by
  cases o <;> rfl

theorem withContentAndZ_end_position (s o : TimeLineContent) :
    (s.withContentAndZ o).timeline_end_position = s.timeline_end_position := by
  cases o <;> rfl

theorem pushCombine_ok_span {self left : TimeLineContent}
    {self_right : Option TimeLineContent} {fade : Option Rat}
    {t2 : TimeLineContent}
    (h : TimeLineContent.pushCombine self left self_right fade = .ok t2) :
    t2.timeline_position = self.timeline_position ∧
    t2.timeline_end_position = self.timeline_end_position := by
  unfold TimeLineContent.pushCombine at h
  split at h
  · injection h with h2
    subst h2
    exact ⟨withContentAndZ_position _ _, withContentAndZ_end_position _ _⟩
  · split at h
    · split at h
      · exact Except.noConfusion h
      · injection h with h2
        subst h2
        exact ⟨withContentAndZ_position _ _, withContentAndZ_end_position _ _⟩
    · split at h
      · exact Except.noConfusion h
      · injection h with h2
        subst h2
        exact ⟨withContentAndZ_position _ _, withContentAndZ_end_position _ _⟩

theorem push_video_ok_span {t : TimeLineContent} {v : VideoInput}
    {t2 : TimeLineContent} (h : t.push_video v = .ok t2) :
    t2.timeline_position = t.timeline_position ∧
    t2.timeline_end_position = t.timeline_end_position := by
  unfold TimeLineContent.push_video at h
  split at h
  · exact Except.noConfusion h
  split at h
  · injection h with h2
    subst h2
    exact ⟨withContentAndZ_position _ _, withContentAndZ_end_position _ _⟩
  simp only [] at h
  repeat' split at h
  all_goals
    first
      | exact Except.noConfusion h
      | exact pushCombine_ok_span h

theorem push_videos_ok_span : ∀ (vs : List VideoInput) (t0 t : TimeLineContent),
    push_videos t0 vs = .ok t →
    t.timeline_position = t0.timeline_position ∧
    t.timeline_end_position = t0.timeline_end_position := by
  intro vs
  induction vs with
  | nil =>
    intro t0 t h
    injection h with h2
    subst h2
    exact ⟨rfl, rfl⟩
  | cons v vs ih =>
    intro t0 t h
    unfold push_videos at h
    split at h
    · exact Except.noConfusion h
    · rename_i t1 heq
      obtain ⟨h1, h2⟩ := push_video_ok_span heq
      obtain ⟨h3, h4⟩ := ih t1 t h
      exact ⟨h3.trans h1, h4.trans h2⟩

/-- **C2.** For every sequence of `VideoInput`s folded into a
`TimeLineContent` created with region duration `d`, after every
(non-panicking) `push_video` call the root's `timeline_position` is `0` and
its `timeline_end_position` is `d`: the root's span stays exactly
`[0, d)`.  Quantifying over all input lists covers the state after every
insertion of any fold. -/
theorem c2_root_span_invariant (d : Rat) (n_tracks : Nat)
    (vs : List VideoInput) (t : TimeLineContent)
    (h : push_videos (TimeLineContent.new d n_tracks) vs = .ok t) :
    t.timeline_position = 0 ∧ t.timeline_end_position = d :=
  push_videos_ok_span vs _ t h

/-- Witness for C2: a full-cover video folded into a region of duration 10
keeps the root span `[0, 10)`. -/
theorem c2_witness :
    push_videos (TimeLineContent.new 10 2)
        [⟨"v.mp4", 0, 10, 0, none, none, false, 1, []⟩] =
      .ok (.Video ⟨"v.mp4", none, none, 0, []⟩ 0 10 1) ∧
    (TimeLineContent.Video ⟨"v.mp4", none, none, 0, []⟩ 0 10 1).timeline_position
        = 0 ∧
    (TimeLineContent.Video ⟨"v.mp4", none, none, 0, []⟩ 0 10 1).timeline_end_position
        = 10 := by
  refine ⟨by decide, ?_, ?_⟩
  · exact (c2_root_span_invariant 10 2
      [⟨"v.mp4", 0, 10, 0, none, none, false, 1, []⟩]
      (.Video ⟨"v.mp4", none, none, 0, []⟩ 0 10 1) (by decide)).1
  · exact (c2_root_span_invariant 10 2
      [⟨"v.mp4", 0, 10, 0, none, none, false, 1, []⟩]
      (.Video ⟨"v.mp4", none, none, 0, []⟩ 0 10 1) (by decide)).2

/-- **C7.** Splitting a `Video` node at a position `p` strictly inside its
span `[pos, endPos)` yields: a left part on `[pos, p)` keeping the original
`fade_in` with `fade_out` removed, and a right part on `[p, endPos)`
keeping the original `fade_out` with `fade_in` removed and `source_offset`
advanced by `p - pos`; file, filter chain and `z_index` are kept by both. -/
theorem c7_video_split (v : VideoData) (pos endPos p : Rat) (z : Nat)
    (h1 : pos < p) (h2 : p < endPos) :
    (TimeLineContent.Video v pos endPos z).split p =
      .ok (.Video { v with fade_out := none } pos p z,
        .Video { v with fade_in := none,
                        source_offset := v.source_offset + (p - pos) }
          p endPos z) :=
  rfl

/-- Witness for C7: a video on `[0, 5)` with both fades, source offset 3
and one user filter, split at 2. -/
theorem c7_witness :
    ((0 : Rat) < 2 ∧ (2 : Rat) < 5) ∧
    (TimeLineContent.Video ⟨"v.mp4", some 1, some 1, 3, ["hue=s=0"]⟩ 0 5 4).split 2
      = .ok (.Video ⟨"v.mp4", some 1, none, 3, ["hue=s=0"]⟩ 0 2 4,
        .Video ⟨"v.mp4", none, some 1, 5, ["hue=s=0"]⟩ 2 5 4) := by
  refine ⟨⟨by decide, by decide⟩, ?_⟩
  have h := c7_video_split ⟨"v.mp4", some 1, some 1, 3, ["hue=s=0"]⟩ 0 5 2 4
    (by decide) (by decide)
  rw [h]
  with_unfolding_all rfl

/-- **C1** (code bug).  Splitting inside the overlap window of an `XFade`
panics instead of recombining: the derived fade durations subtract a
subtree's own end position from itself, yielding zero, and the zero-width
`XFade::new` rebuild fails its overlap assert (`wrong duration length`).
Concretely: video `A = [0s, 6s)` cross-faded over background `[5s, 11s)`
with a 1s fade — a split at `5.5s`, strictly inside the `[5s, 6s)` overlap
window, hits the assert, so no recombination is possible there. -/
theorem c1_split_xfade_overlap_panics :
    (TimeLineContent.XFade
        (.Video ⟨"a.mp4", none, some 1, 0, []⟩ 0 6 0)
        (.Background 5 11 2) 1 0 11 0).split (11 / 2) =
      .error .wrongDurationLength := by
  with_unfolding_all decide

theorem Concat_new_error {l r : TimeLineContent} {e : PanicMsg}
    (h : Concat.new l r = .error e) : e = .wrongConnection := by
  unfold Concat.new at h
  split at h
  · exact Except.noConfusion h
  · injection h with h2
    exact h2.symm

theorem XFade_new_error {l r : TimeLineContent} {d : Rat} {e : PanicMsg}
    (h : XFade.new l r d = .error e) : e = .wrongDurationLength := by
  unfold XFade.new at h
  split at h
  · exact Except.noConfusion h
  · injection h with h2
    exact h2.symm

theorem bindE_error {α β : Type} {x : Except PanicMsg α}
    {f : α → Except PanicMsg β} {e : PanicMsg} (h : bindE x f = .error e) :
    x = .error e ∨ ∃ y, x = .ok y ∧ f y = .error e := by
  cases x with
  | error e0 =>
    left
    injection h with h2
    rw [h2]
  | ok y =>
    right
    exact ⟨y, rfl, h⟩

theorem bindE_ok {α β : Type} {x : Except PanicMsg α}
    {f : α → Except PanicMsg β} {z : β} (h : bindE x f = .ok z) :
    ∃ y, x = .ok y ∧ f y = .ok z := by
  cases x with
  | error e0 => exact Except.noConfusion h
  | ok y => exact ⟨y, rfl, h⟩

/-- The only asserts reachable from `split` are the `Concat::new` and
`XFade::new` seam asserts, never the z-order assert of `push_video`. -/
theorem split_error_not_zassert :
    ∀ (t : TimeLineContent) (p : Rat) (e : PanicMsg),
    t.split p = .error e → e ≠ .pushingUnderlyingVideo := by
  intro t
  induction t with
  | Background pos endPos z =>
    intro p e h
    exact Except.noConfusion h
  | Video v pos endPos z =>
    intro p e h
    exact Except.noConfusion h
  | Concat cLeft cRight pos endPos z ihl ihr =>
    intro p e h
    unfold TimeLineContent.split at h
    split at h
    · exact Except.noConfusion h
    rcases bindE_error h with h | ⟨⟨left, center, right⟩, _hy, h⟩
    · split at h
      · rcases bindE_error h with h | ⟨⟨l1, c1⟩, _hy, h⟩
        · exact ihl _ _ h
        · exact Except.noConfusion h
      · rcases bindE_error h with h | ⟨⟨c1, r1⟩, _hy, h⟩
        · exact ihr _ _ h
        · exact Except.noConfusion h
    · simp only [] at h
      split at h
      all_goals
        rcases bindE_error h with h | ⟨c, _hc, h⟩
        · intro hh
          subst hh
          exact PanicMsg.noConfusion (Concat_new_error h)
        · exact Except.noConfusion h
  | XFade fLeft fRight fd pos endPos z ihl ihr =>
    intro p e h
    unfold TimeLineContent.split at h
    split at h
    · rcases bindE_error h with h | ⟨⟨l1, r1⟩, _hy, h⟩
      · exact ihl _ _ h
      rcases bindE_error h with h | ⟨x, _hx, h⟩
      · intro hh
        subst hh
        exact PanicMsg.noConfusion (XFade_new_error h)
      · exact Except.noConfusion h
    split at h
    · rcases bindE_error h with h | ⟨⟨l1, r1⟩, _hy, h⟩
      · exact ihr _ _ h
      rcases bindE_error h with h | ⟨x, _hx, h⟩
      · intro hh
        subst hh
        exact PanicMsg.noConfusion (XFade_new_error h)
      · exact Except.noConfusion h
    · rcases bindE_error h with h | ⟨⟨lLeft, lRight⟩, _hy, h⟩
      · exact ihl _ _ h
      rcases bindE_error h with h | ⟨⟨rLeft, rRight⟩, _hy2, h⟩
      · exact ihr _ _ h
      rcases bindE_error h with h | ⟨x1, _hx1, h⟩
      · intro hh
        subst hh
        exact PanicMsg.noConfusion (XFade_new_error h)
      rcases bindE_error h with h | ⟨x2, _hx2, h⟩
      · intro hh
        subst hh
        exact PanicMsg.noConfusion (XFade_new_error h)
      · exact Except.noConfusion h

theorem pushSplitLeft_error_not_zassert {t : TimeLineContent} {s : Rat}
    {e : PanicMsg} (h : t.pushSplitLeft s = .error e) :
    e ≠ .pushingUnderlyingVideo := by
  unfold TimeLineContent.pushSplitLeft at h
  split at h
  · exact Except.noConfusion h
  split at h
  · rename_i heq
    injection h with h2
    subst h2
    exact split_error_not_zassert _ _ _ heq
  · exact Except.noConfusion h

theorem pushSplitRight_error_not_zassert {t : TimeLineContent} {s : Rat}
    {e : PanicMsg} (h : t.pushSplitRight s = .error e) :
    e ≠ .pushingUnderlyingVideo := by
  unfold TimeLineContent.pushSplitRight at h
  split at h
  · exact Except.noConfusion h
  split at h
  · rename_i heq
    injection h with h2
    subst h2
    exact split_error_not_zassert _ _ _ heq
  · exact Except.noConfusion h

theorem pushLeft_error_not_zassert {sl : Option TimeLineContent}
    {v : VideoInput} {e : PanicMsg}
    (h : TimeLineContent.pushLeft sl v = .error e) :
    e ≠ .pushingUnderlyingVideo := by
  unfold TimeLineContent.pushLeft at h
  split at h
  · exact Except.noConfusion h
  split at h
  · intro hh
    subst hh
    exact PanicMsg.noConfusion (Concat_new_error h)
  · intro hh
    subst hh
    exact PanicMsg.noConfusion (XFade_new_error h)

theorem pushCombine_error_not_zassert {self left : TimeLineContent}
    {self_right : Option TimeLineContent} {fade : Option Rat} {e : PanicMsg}
    (h : TimeLineContent.pushCombine self left self_right fade = .error e) :
    e ≠ .pushingUnderlyingVideo := by
  unfold TimeLineContent.pushCombine at h
  repeat' split at h
  all_goals
    first
      | exact Except.noConfusion h
      | (injection h with h2
         subst h2
         first
           | (intro hh
              subst hh
              exact PanicMsg.noConfusion (Concat_new_error (by assumption)))
           | (intro hh
              subst hh
              exact PanicMsg.noConfusion (XFade_new_error (by assumption))))

/-- **C9.** The z-order precondition of `push_video` is a fatal assert:
an input whose `track_index` exceeds the tree's current `z_index` panics
with `pushing underlying video` before the tree is modified, and for an
input with `track_index ≤ z_index` that assert can never fire — any panic
out of such a call is one of the seam asserts, never the z-order one. -/
theorem c9_push_video_zorder_assert (t : TimeLineContent) (v : VideoInput) :
    (t.z_index < v.track_index →
      t.push_video v = .error .pushingUnderlyingVideo) ∧
    (v.track_index ≤ t.z_index →
      t.push_video v ≠ .error .pushingUnderlyingVideo) := by
  constructor
  · intro hgt
    unfold TimeLineContent.push_video
    rw [if_pos (by omega)]
  · intro hle h
    unfold TimeLineContent.push_video at h
    rw [if_neg (by omega)] at h
    split at h
    · exact Except.noConfusion h
    simp only [] at h
    repeat' split at h
    all_goals
      first
        | exact Except.noConfusion h
        | (injection h with h2
           first
             | exact pushSplitLeft_error_not_zassert (by assumption) h2
             | exact pushSplitRight_error_not_zassert (by assumption) h2
             | exact pushLeft_error_not_zassert (by assumption) h2)
        | exact pushCombine_error_not_zassert h rfl

/-- Witness for C9: a region tree with `z_index = 2` rejects a track-3
input with the z-order panic and accepts a track-2 input without it. -/
theorem c9_witness :
    (TimeLineContent.new 10 2).push_video
        ⟨"v.mp4", 0, 10, 0, none, none, false, 3, []⟩
      = .error .pushingUnderlyingVideo ∧
    (TimeLineContent.new 10 2).push_video
        ⟨"v.mp4", 0, 10, 0, none, none, false, 2, []⟩
      ≠ .error .pushingUnderlyingVideo :=
  ⟨(c9_push_video_zorder_assert (TimeLineContent.new 10 2)
      ⟨"v.mp4", 0, 10, 0, none, none, false, 3, []⟩).1 (by decide),
   (c9_push_video_zorder_assert (TimeLineContent.new 10 2)
      ⟨"v.mp4", 0, 10, 0, none, none, false, 2, []⟩).2 (by decide)⟩

/-- **C10.** `Node::connect_sink` is atomic and symmetric: with either index
out of range it returns `Err` and both nodes come back with their pins
completely unchanged; with both indices in range it returns `Ok` and the
only mutation is the sink pin's target becoming the source pin's name and
the source pin's target becoming the sink pin's name (`with_target` keeps
every pin name, `List.set` keeps every other pin). -/
theorem c10_connect_sink (self other : Node) (sink_index source_index : Nat) :
    (¬ (sink_index < self.inputs.length ∧ source_index < other.outputs.length) →
      (∃ e, (self.connect_sink other sink_index source_index).1 = .error e) ∧
      (self.connect_sink other sink_index source_index).2.1 = self ∧
      (self.connect_sink other sink_index source_index).2.2 = other) ∧
    (∀ sink source, self.inputs[sink_index]? = some sink →
      other.outputs[source_index]? = some source →
      self.connect_sink other sink_index source_index =
        (.ok (),
          { self with
              inputs := self.inputs.set sink_index
                (sink.with_target (some source.get_name)) },
          { other with
              outputs := other.outputs.set source_index
                (source.with_target (some sink.get_name)) })) := by
  constructor
  · intro hnr
    unfold Node.connect_sink
    cases h1 : self.inputs[sink_index]? with
    | none => exact ⟨⟨_, rfl⟩, rfl, rfl⟩
    | some sink =>
      cases h2 : other.outputs[source_index]? with
      | none => exact ⟨⟨_, rfl⟩, rfl, rfl⟩
      | some source =>
        exfalso
        apply hnr
        obtain ⟨hl1, -⟩ := List.getElem?_eq_some.mp h1
        obtain ⟨hl2, -⟩ := List.getElem?_eq_some.mp h2
        exact ⟨hl1, hl2⟩
  · intro sink source h1 h2
    unfold Node.connect_sink
    rw [h1, h2]

/-- Witness for C10: one in-range connection mutating exactly the two pins,
and one out-of-range call leaving the first node untouched. -/
theorem c10_witness :
    Node.connect_sink ⟨[.Video "a" none], [], .Filter "f"⟩
        ⟨[], [.Video "b" none], .Filter "g"⟩ 0 0 =
      (.ok (), ⟨[.Video "a" (some "b")], [], .Filter "f"⟩,
        ⟨[], [.Video "b" (some "a")], .Filter "g"⟩) ∧
    (Node.connect_sink ⟨[.Video "a" none], [], .Filter "f"⟩
        ⟨[], [.Video "b" none], .Filter "g"⟩ 5 0).2.1 =
      ⟨[.Video "a" none], [], .Filter "f"⟩ := by
  constructor
  · have h := (c10_connect_sink ⟨[.Video "a" none], [], .Filter "f"⟩
      ⟨[], [.Video "b" none], .Filter "g"⟩ 0 0).2
      (.Video "a" none) (.Video "b" none) rfl rfl
    rw [h]
    rfl
  · exact ((c10_connect_sink ⟨[.Video "a" none], [], .Filter "f"⟩
      ⟨[], [.Video "b" none], .Filter "g"⟩ 5 0).1 (by decide)).2.1

/-- **C6.** A `progress=end` message moves the job's progress to
`Result(Ok(()))` exactly when no error was latched earlier: with an error
already latched the whole poll step leaves the job unchanged (and aborts
the drain), otherwise progress becomes `Result(Ok(()))`. -/
theorem c6_progress_end_latch (j : RenderJob) :
    (∀ e, j.progress = .Result (.error e) →
      j.pollOne (.Progress (.ok "end")) = (j, false)) ∧
    (j.progress.isErr = false →
      (j.pollOne (.Progress (.ok "end"))).1.progress = .Result (.ok ())) := by
  constructor
  · intro e he
    simp only [RenderJob.pollOne]
    rw [he]
    simp
  · intro hne
    simp only [RenderJob.pollOne]
    cases hp : j.progress with
    | Progress f => simp
    | Result r =>
      cases r with
      | ok u => simp
      | error e =>
        rw [hp] at hne
        exact absurd hne (by simp [RenderProgress.isErr])

/-- Witness for C6: a job with a latched error is left unchanged by
`progress=end`; a fresh job transitions to `Result(Ok(()))`. -/
theorem c6_witness :
    ({ mkRenderJob "o.mkv" 10 with
        progress := .Result (.error "boom") } : RenderJob).pollOne
        (.Progress (.ok "end"))
      = ({ mkRenderJob "o.mkv" 10 with progress := .Result (.error "boom") },
          false) ∧
    ((mkRenderJob "o.mkv" 10).pollOne (.Progress (.ok "end"))).1.progress
      = .Result (.ok ()) :=
  ⟨(c6_progress_end_latch _).1 "boom" rfl, (c6_progress_end_latch _).2 rfl⟩

theorem pollOne_preserves_result {j : RenderJob} {msg : RenderMessage}
    (hres : j.progress.isResult = true) (hnt : ∀ t, msg ≠ .Time t) :
    ((j.pollOne msg).1.progress.isResult = true) := by
  cases msg with
  | Time t => exact absurd rfl (hnt t)
  | Frame n => exact hres
  | Fps f => exact hres
  | Speed s => exact hres
  | Stop => exact hres
  | Progress p =>
    cases p with
    | error e => rfl
    | ok w =>
      simp only [RenderJob.pollOne]
      split
      · split
        · exact hres
        · rfl
      · exact hres
  | Err e =>
    simp only [RenderJob.pollOne]
    split
    · rfl
    · rfl
  | LogError s =>
    simp only [RenderJob.pollOne]
    split
    · rfl
    · exact hres

theorem poll_preserves_result :
    ∀ (msgs : List RenderMessage) (j : RenderJob),
    j.progress.isResult = true → (∀ t, RenderMessage.Time t ∉ msgs) →
    (j.poll msgs).progress.isResult = true := by
  intro msgs
  induction msgs with
  | nil =>
    intro j h _
    exact h
  | cons m rest ih =>
    intro j h hnt
    have hm : ∀ t, m ≠ .Time t :=
      fun t hmt => hnt t (hmt ▸ List.mem_cons_self m rest)
    have h2 := pollOne_preserves_result h hm
    simp only [RenderJob.poll]
    rcases hp : j.pollOne m with ⟨j2, cont⟩
    rw [hp] at h2
    cases cont with
    | false => exact h2
    | true =>
      exact ih j2 h2 (fun t ht => hnt t (List.mem_cons_of_mem m ht))

/-- **C3** (amended).  `Result` progress states are terminal for every
message except `Time`: polling any sequence of `RenderMessage`s containing
no `Time` message never moves the progress field back to a
`Progress(fraction)` state (a `Time`/`out_time` message, by contrast,
unconditionally overwrites progress with a fraction).  The initial state of
a constructed job is `Progress(0.0)`. -/
theorem c3_result_terminal_without_time (j : RenderJob)
    (msgs : List RenderMessage) (fn : String) (d : Rat)
    (hres : j.progress.isResult = true)
    (hnt : ∀ t, RenderMessage.Time t ∉ msgs) :
    (j.poll msgs).progress.isResult = true ∧
    (mkRenderJob fn d).progress = .Progress 0 :=
  ⟨poll_preserves_result msgs j hres hnt, rfl⟩

/-- Counterexample to C3 as stated: a job whose progress is the terminal
`Result(Ok(()))` is moved back to a `Progress` state by a later `Time`
message (an `out_time` line), because the `Time` arm overwrites the
progress field unconditionally. -/
theorem c3_counterexample :
    (({ mkRenderJob "o.mkv" 10 with
        progress := .Result (.ok ()) } : RenderJob).poll
      [.Time (.Seconds 1)]).progress = .Progress (1 / 10) := by
  with_unfolding_all decide

/-- Witness for C3 (amended): a job with a latched error polled through
every non-`Time` message kind stays in a `Result` state, and a freshly
constructed job starts at `Progress(0.0)`. -/
theorem c3_witness :
    (({ mkRenderJob "o.mkv" 10 with
        progress := .Result (.ok ()) } : RenderJob).poll
        [.Frame 1, .Fps 2, .Speed "1x", .Progress (.ok "continue"), .Stop,
          .Err "e", .LogError "log", .Progress (.ok "end")]).progress.isResult
      = true ∧
    (mkRenderJob "o.mkv" 10).progress = .Progress 0 :=
  c3_result_terminal_without_time _ _ "o.mkv" 10 rfl
    (by intro t ht; simp at ht)

/-- **C8.** The five progress lines of the spec scenario, parsed with
`from_string` and drained with `poll`, set the status to frame 120,
fps 29.7, time 4s, speed `1.02x`, and progress to `Progress(4s / duration)`;
a subsequent `progress=end` line with no prior error moves progress to
`Result(Ok(()))`. -/
theorem c8_progress_lines (fn : String) (d : Rat) (hd : 0 < d) :
    ((mkRenderJob fn d).poll
        (["frame=120", "fps=29.7", "out_time=00:00:04.000000", "speed=1.02x",
          "progress=continue"].filterMap RenderMessage.from_string)).last_status
      = ⟨120, 297 / 10, .Timestamp 0 0 4, "1.02x", .ok "continue"⟩ ∧
    ((mkRenderJob fn d).poll
        (["frame=120", "fps=29.7", "out_time=00:00:04.000000", "speed=1.02x",
          "progress=continue"].filterMap RenderMessage.from_string)).progress
      = .Progress (4 / d) ∧
    (((mkRenderJob fn d).poll
        (["frame=120", "fps=29.7", "out_time=00:00:04.000000", "speed=1.02x",
          "progress=continue"].filterMap RenderMessage.from_string)).poll
        (["progress=end"].filterMap RenderMessage.from_string)).progress
      = .Result (.ok ()) := by
  refine ⟨?_, ?_, ?_⟩ <;> with_unfolding_all rfl

theorem natDecAux_shift :
    ∀ (fuel n : Nat) (acc : List Char),
    natDecAux fuel n acc = natDecAux fuel n [] ++ acc := by
  intro fuel
  induction fuel with
  | zero => intro n acc; rfl
  | succ fuel ih =>
    intro n acc
    simp only [natDecAux]
    split
    · rfl
    · rw [ih (n / 10) (digitChar (n % 10) :: acc),
        ih (n / 10) [digitChar (n % 10)], List.append_assoc]
      rfl

theorem charVal_digitChar {d : Nat} (h : d < 10) : charVal (digitChar d) = d := by
  interval_cases d <;> decide

theorem parseDigitsAcc_append (xs ys : List Char) (a : Nat) :
    parseDigitsAcc (xs ++ ys) a = parseDigitsAcc ys (parseDigitsAcc xs a) := by
  induction xs generalizing a with
  | nil => rfl
  | cons c cs ih =>
    simp only [List.cons_append, parseDigitsAcc]
    exact ih _

theorem parse_natDecAux :
    ∀ (fuel n a : Nat), n < fuel →
    parseDigitsAcc (natDecAux fuel n []) a
      = a * 10 ^ (natDecAux fuel n []).length + n := by
  intro fuel
  induction fuel with
  | zero => intro n a h; omega
  | succ fuel ih =>
    intro n a h
    simp only [natDecAux]
    split
    · rename_i hlt
      simp only [parseDigitsAcc, List.length_singleton, pow_one]
      rw [charVal_digitChar (Nat.mod_lt n (by omega))]
      omega
    · rename_i hge
      rw [natDecAux_shift fuel (n / 10) [digitChar (n % 10)]]
      rw [parseDigitsAcc_append]
      have hdiv : n / 10 < fuel := by
        have h1 : n / 10 < n := Nat.div_lt_self (by omega) (by omega)
        omega
      rw [ih (n / 10) a hdiv]
      simp only [parseDigitsAcc, List.length_append, List.length_singleton]
      rw [charVal_digitChar (Nat.mod_lt n (by omega))]
      have hmod : 10 * (n / 10) + n % 10 = n := Nat.div_add_mod n 10
      rw [pow_succ]
      ring_nf
      omega

theorem parse_natDec (n : Nat) : parseNat (natDec n) = n := by
  have h := parse_natDecAux (n + 1) n 0 (Nat.lt_succ_self n)
  simpa [parseNat, natDec] using h

theorem natDec_injective : Function.Injective natDec := by
  intro m n h
  have hm := parse_natDec m
  have hn := parse_natDec n
  rw [h] at hm
  omega

theorem lookup_setAssoc :
    ∀ (l : List (String × Nat)) (k : String) (v : Nat) (k2 : String),
    (setAssoc l k v).lookup k2 = if k2 = k then some v else l.lookup k2 := by
  intro l k v
  induction l with
  | nil =>
    intro k2
    rcases eq_or_ne k2 k with h | h
    · subst h
      simp [setAssoc, List.lookup]
    · simp [setAssoc, List.lookup, beq_eq_false_iff_ne.mpr h, h]
  | cons e rest ih =>
    intro k2
    obtain ⟨k0, v0⟩ := e
    simp only [setAssoc]
    split
    · rename_i hk0
      subst hk0
      rcases eq_or_ne k2 k0 with h | h
      · subst h
        simp [List.lookup]
      · simp [List.lookup, beq_eq_false_iff_ne.mpr h, h]
    · rename_i hk0
      rcases eq_or_ne k2 k0 with h | h
      · subst h
        simp only [List.lookup, beq_self_eq_true]
        rw [if_neg hk0]
      · simp only [List.lookup, beq_eq_false_iff_ne.mpr h]
        rw [ih k2]

/-- The generator state after a sequence of calls: each name maps to one
less than the number of calls made with it, absent names have no entry. -/
def IdState (g : NamedStreamId) (past : List String) : Prop :=
  ∀ p : String, g.names.lookup p =
    if past.count p = 0 then none else some (past.count p - 1)

theorem idState_new : IdState NamedStreamId.new [] := by
  intro p
  rfl

theorem id_spec {g : NamedStreamId} {past : List String} (hg : IdState g past)
    (p : String) :
    (g.id p).1 = p ++ natDec (past.count p) ∧
    IdState (g.id p).2 (past ++ [p]) := by
  have hp := hg p
  cases hl : g.names.lookup p with
  | none =>
    rw [hl] at hp
    have hc : past.count p = 0 := by
      by_contra hc
      rw [if_neg hc] at hp
      exact Option.noConfusion hp
    simp only [NamedStreamId.id, hl]
    constructor
    · rw [hc]
      rfl
    · intro q
      show List.lookup q ((p, 0) :: g.names) = _
      rcases eq_or_ne q p with hq | hq
      · subst hq
        simp [List.lookup, List.count_append, hc]
      · simp only [List.lookup, beq_eq_false_iff_ne.mpr hq]
        rw [hg q]
        have : (past ++ [p]).count q = past.count q := by
          simp [List.count_append, List.count_singleton, hq]
        rw [this]
  | some index =>
    rw [hl] at hp
    have hc : past.count p ≠ 0 := by
      intro hc
      rw [if_pos hc] at hp
      exact Option.noConfusion hp
    rw [if_neg hc] at hp
    injection hp with hidx
    simp only [NamedStreamId.id, hl]
    constructor
    · have h1 : index + 1 = past.count p := by omega
      rw [h1]
    · intro q
      show (setAssoc g.names p (index + 1)).lookup q = _
      rw [lookup_setAssoc]
      rcases eq_or_ne q p with hq | hq
      · subst hq
        have h1 : (past ++ [q]).count q = past.count q + 1 := by
          simp [List.count_append]
        rw [if_pos rfl, h1, if_neg (by omega)]
        congr 1
        omega
      · have h1 : (past ++ [p]).count q = past.count q := by
          simp [List.count_append, List.count_singleton, hq]
        rw [if_neg hq, hg q, h1]

theorem runIds_length : ∀ (ps : List String) (g : NamedStreamId),
    (runIds g ps).length = ps.length := by
  intro ps
  induction ps with
  | nil => intro g; rfl
  | cons p ps ih =>
    intro g
    simp only [runIds, List.length_cons]
    rw [ih]

theorem runIds_get? :
    ∀ (ps : List String) (g : NamedStreamId) (past : List String),
    IdState g past →
    ∀ (i : Nat) (p : String), ps[i]? = some p →
    (runIds g ps)[i]? = some (p ++ natDec ((past ++ ps.take i).count p)) := by
  intro ps
  induction ps with
  | nil =>
    intro g past _ i p hp
    simp at hp
  | cons q ps ih =>
    intro g past hg i p hp
    obtain ⟨hq, hstate⟩ := id_spec hg q
    cases i with
    | zero =>
      simp only [List.getElem?_cons_zero, Option.some.injEq] at hp
      subst hp
      simp only [runIds, List.getElem?_cons_zero, Option.some.injEq]
      rw [hq]
      simp
    | succ i =>
      simp only [List.getElem?_cons_succ] at hp
      simp only [runIds, List.getElem?_cons_succ]
      rw [ih (g.id q).2 (past ++ [q]) hstate i p hp]
      have hassoc : past ++ [q] ++ ps.take i = past ++ (q :: ps.take i) := by
        simp
      rw [hassoc]
      rfl

theorem string_append_ne_of_head {c1 c2 : Char} {t1 t2 : List Char}
    {p1 p2 s1 s2 : String} (h1 : p1.data = c1 :: t1) (h2 : p2.data = c2 :: t2)
    (hc : c1 ≠ c2) : p1 ++ s1 ≠ p2 ++ s2 := by
  intro h
  have h3 := congrArg String.data h
  rw [String.data_append, String.data_append, h1, h2] at h3
  simp only [List.cons_append, List.cons.injEq] at h3
  exact hc h3.1

theorem string_append_right_ne {p x y : String} (h : x ≠ y) :
    p ++ x ≠ p ++ y := by
  intro hc
  apply h
  have h3 := congrArg String.data hc
  rw [String.data_append, String.data_append] at h3
  have h4 := List.append_cancel_left h3
  cases x
  cases y
  exact congrArg String.mk h4

theorem four_prefixes_append_ne {p1 p2 : String}
    (h1 : p1 ∈ (["bg", "vf", "conc", "xfade"] : List String))
    (h2 : p2 ∈ (["bg", "vf", "conc", "xfade"] : List String))
    (hne : p1 ≠ p2) (s1 s2 : String) : p1 ++ s1 ≠ p2 ++ s2 := by
  fin_cases h1 <;> fin_cases h2 <;>
    first
      | exact absurd rfl hne
      | exact string_append_ne_of_head rfl rfl (by decide)

/-- **C4.** All stream ids produced by one generator are pairwise distinct
across the lowering prefixes: the `i`-th call with name `p` returns `p`
concatenated with the decimal rendering of the number of earlier calls with
the same name (a per-name monotonic counter starting at `p0`), and for any
call sequence drawn from the lowering prefixes `bg`, `vf`, `conc`, `xfade`
no two calls ever return the same string. -/
theorem c4_stream_ids (ps : List String) :
    (∀ (i : Nat) (p : String), ps[i]? = some p →
      (runIds NamedStreamId.new ps)[i]?
        = some (p ++ natDec ((ps.take i).count p))) ∧
    ((∀ p ∈ ps, p ∈ (["bg", "vf", "conc", "xfade"] : List String)) →
      (runIds NamedStreamId.new ps).Nodup) := by
  have hget : ∀ (i : Nat) (p : String), ps[i]? = some p →
      (runIds NamedStreamId.new ps)[i]?
        = some (p ++ natDec ((ps.take i).count p)) := by
    intro i p hp
    have h := runIds_get? ps NamedStreamId.new [] idState_new i p hp
    simpa using h
  refine ⟨hget, ?_⟩
  intro hmem
  have key : ∀ (i j : Nat), i < j →
      ∀ (hi : i < (runIds NamedStreamId.new ps).length)
        (hj : j < (runIds NamedStreamId.new ps).length),
      (runIds NamedStreamId.new ps)[i] ≠ (runIds NamedStreamId.new ps)[j] := by
    intro i j hlt hi hj hij
    have hi2 : i < ps.length := by rwa [runIds_length] at hi
    have hj2 : j < ps.length := by rwa [runIds_length] at hj
    have hpi := hget i ps[i] (List.getElem?_eq_getElem hi2)
    have hpj := hget j ps[j] (List.getElem?_eq_getElem hj2)
    rw [List.getElem?_eq_getElem hi] at hpi
    rw [List.getElem?_eq_getElem hj] at hpj
    injection hpi with hpi
    injection hpj with hpj
    rw [hpi, hpj] at hij
    rcases eq_or_ne ps[i] ps[j] with hpq | hpq
    · rw [← hpq] at hij
      have hcount : (ps.take i).count ps[i] < (ps.take j).count ps[i] := by
        have hstep : (ps.take (i + 1)).count ps[i]
            = (ps.take i).count ps[i] + 1 := by
          rw [List.take_succ, List.count_append,
            List.getElem?_eq_getElem hi2]
          simp
        have hmono : (ps.take (i + 1)).count ps[i]
            ≤ (ps.take j).count ps[i] := by
          have hsplit : ps.take j
              = ps.take (i + 1) ++ (ps.drop (i + 1)).take (j - (i + 1)) := by
            rw [← List.take_add]
            congr 1
            omega
          rw [hsplit, List.count_append]
          omega
        omega
      exact string_append_right_ne
        (fun hc => by
          have := natDec_injective hc
          omega) hij
    · exact four_prefixes_append_ne
        (hmem ps[i] (List.getElem_mem hi2))
        (hmem ps[j] (List.getElem_mem hj2)) hpq _ _ hij
  rw [List.nodup_iff_injective_get]
  intro ⟨i, hi⟩ ⟨j, hj⟩ hij
  by_contra hne
  have hne2 : i ≠ j := fun hc => hne (Fin.ext hc)
  rcases hne2.lt_or_lt with hlt | hlt
  · exact key i j hlt hi hj hij
  · exact key j i hlt hj hi hij.symm

/-- Witness for C4: the call sequence of the C5 scenario lowering — ids are
the prefix joined with the per-prefix counter, and all five are distinct. -/
theorem c4_witness :
    ((["xfade", "vf", "bg", "xfade", "vf"] :
        List String)[2]? = some "bg" →
      (runIds NamedStreamId.new ["xfade", "vf", "bg", "xfade", "vf"])[2]?
        = some ("bg" ++ natDec 0)) ∧
    runIds NamedStreamId.new ["xfade", "vf", "bg", "xfade", "vf"]
      = ["xfade0", "vf0", "bg0", "xfade1", "vf1"] ∧
    (runIds NamedStreamId.new ["xfade", "vf", "bg", "xfade", "vf"]).Nodup := by
  refine ⟨?_, by decide, ?_⟩
  · intro h
    have := (c4_stream_ids ["xfade", "vf", "bg", "xfade", "vf"]).1 2 "bg" h
    simpa using this
  · exact (c4_stream_ids ["xfade", "vf", "bg", "xfade", "vf"]).2 (by decide)

/-- **C5.** Lowering an `XFade` node allocates one fresh id (the next
`xfade`-prefixed id, taken before the children are lowered), lowers both
children in order with the threaded generator, joins their expressions with
`render_filters`, and appends exactly one cross-fade stage whose `duration`
parameter is the node's `fade_duration` and whose `offset` parameter is the
right child's `timeline_position` in seconds. -/
theorem c5_xfade_lowering (t l r : TimeLineContent) (fd pos endPos : Rat)
    (z : Nat) (res : Resolution) (fr : Nat × Nat) (bg : String)
    (gen : StreamId) (h : t = .XFade l r fd pos endPos z) :
    ∀ (id1 : String) (gen1 : StreamId) (leftR : TimeLineContentRender)
      (gen2 : StreamId) (rightR : TimeLineContentRender) (gen3 : StreamId),
    gen.id "xfade" = (id1, gen1) →
    l.render res fr bg gen1 = (leftR, gen2) →
    r.render res fr bg gen2 = (rightR, gen3) →
    t.render res fr bg gen =
      (⟨id1, leftR.inputs ++ rightR.inputs,
        some (renderJoin leftR rightR
          ++ xfadeStage leftR.id rightR.id fd r.timeline_position)⟩,
       gen3) := by
  subst h
  intro id1 gen1 leftR gen2 rightR gen3 h1 h2 h3
  simp only [TimeLineContent.render]
  rw [h1, h2, h3]

/-- The left subtree of the C5 scenario tree: video A = `[0s, 6s)` with a
1s fade-out, cross-faded over the background remainder `[5s, 6s)`. -/
def c5Left : TimeLineContent :=
  .XFade (.Video ⟨"a.mp4", none, some 1, 0, []⟩ 0 6 0)
    (.Background 5 6 2) 1 0 6 0

/-- The right subtree of the C5 scenario tree: video B = `[5s, 11s)` with a
1s fade-in. -/
def c5Right : TimeLineContent := .Video ⟨"b.mp4", some 1, none, 0, []⟩ 5 11 0

/-- The C5 scenario tree over the region `[0s, 11s)`: the outer cross-fade
has a 1s overlap starting at 5s. -/
def c5Tree : TimeLineContent := .XFade c5Left c5Right 1 0 11 0

def c5Gen1 : StreamId := (StreamId.new.id "xfade").2

def c5LeftRender : TimeLineContentRender × StreamId :=
  c5Left.render ⟨1920, 1080⟩ (30000, 1001) "black" c5Gen1

def c5RightRender : TimeLineContentRender × StreamId :=
  c5Right.render ⟨1920, 1080⟩ (30000, 1001) "black" c5LeftRender.2

/-- Witness for C5: the spec scenario (A = `[0s, 6s)` with 1s fade-out,
B = `[5s, 11s)` with 1s fade-in, same track) is built by folding the two
inputs with `push_video`; lowering the resulting tree emits exactly one
outer cross-fade stage, whose rendered text carries `duration=1` and
`offset=5`. -/
theorem c5_witness :
    push_videos (TimeLineContent.new 11 2)
        [⟨"a.mp4", 0, 6, 0, none, some 1, false, 0, []⟩,
         ⟨"b.mp4", 5, 11, 0, some 1, none, false, 0, []⟩] = .ok c5Tree ∧
    c5Tree.render ⟨1920, 1080⟩ (30000, 1001) "black" StreamId.new =
      (⟨(StreamId.new.id "xfade").1,
        c5LeftRender.1.inputs ++ c5RightRender.1.inputs,
        some (renderJoin c5LeftRender.1 c5RightRender.1
          ++ xfadeStage c5LeftRender.1.id c5RightRender.1.id 1 5)⟩,
       c5RightRender.2) ∧
    xfadeStage c5LeftRender.1.id c5RightRender.1.id 1 5
      = "[xfade1][vf1]xfade=transition=fade:duration=1:offset=5" := by
  refine ⟨by with_unfolding_all decide, ?_, by with_unfolding_all decide⟩
  exact c5_xfade_lowering c5Tree c5Left c5Right 1 0 11 0 ⟨1920, 1080⟩
    (30000, 1001) "black" StreamId.new rfl
    (StreamId.new.id "xfade").1 c5Gen1
    c5LeftRender.1 c5LeftRender.2 c5RightRender.1 c5RightRender.2
    rfl rfl rfl

/-- Witness for C8 at target duration 10s: progress reaches `2/5 = 4/10`. -/
theorem c8_witness :
    (0 : Rat) < 10 ∧
    ((mkRenderJob "out.mkv" 10).poll
        (["frame=120", "fps=29.7", "out_time=00:00:04.000000", "speed=1.02x",
          "progress=continue"].filterMap RenderMessage.from_string)).progress
      = .Progress (4 / 10) :=
  ⟨by norm_num, (c8_progress_lines "out.mkv" 10 (by norm_num)).2.1⟩

end ReaperLevitanus
